import Mathlib

/-!
# Verification of the offline asset cache (service worker) and the CLI exercise

Shallow embedding of the repository's service-worker snippet
(`service-worker.js`): a named cache store populated at install time from a
fixed asset manifest, and a cache-first fetch handler with network fallback.
Also embeds the comparison loop of the standalone "largest of three numbers"
exercise (`Main.java`).
-/

set_option autoImplicit false

namespace ServiceWorker

/-- A request identity: method plus URL, as used to key the cache. -/
structure Request where
  method : String
  url : String
deriving DecidableEq, Repr

/-- A stored response object: status and body. -/
structure Response where
  status : Nat
  body : String
deriving DecidableEq, Repr

/-- A single named cache store: an association list from request identities
to stored responses. -/
abbrev Store : Type := List (Request × Response)

/-- The network: maps a request to `some` response, or `none` on network
failure (`fetch` rejecting). -/
abbrev Network : Type := Request → Option Response

/-- `const cacheName = 'pwa-cache-v1';` -/
def cacheName : String := "pwa-cache-v1"

/-- `const assets = ['/', '/static/app.js', '/static/manifest.json'];` -/
def assets : List String := ["/", "/static/app.js", "/static/manifest.json"]

/-- The request issued for a manifest asset path (a plain GET). -/
def assetRequest (path : String) : Request :=
  { method := "GET", url := path }

/-- `Store.match(request)`: look up a request identity in one store. -/
def storeMatch : Store → Request → Option Response
  | [], _ => none
  | (r, v) :: rest, req => if r = req then some v else storeMatch rest req

/-- `Store.put(request, response)`: store a response under a request identity,
overwriting any existing entry for that identity. -/
def storePut : Store → Request → Response → Store
  | [], req, v => [(req, v)]
  | (r, w) :: rest, req, v =>
    if r = req then (req, v) :: rest else (r, w) :: storePut rest req v

/-- The global cache state: the collection of named stores, in creation
order. -/
abbrev CacheState : Type := List (String × Store)

/-- `caches.open(name)`: return the state after opening the named store,
creating an empty one if absent. -/
def cachesOpen (cs : CacheState) (name : String) : CacheState :=
  if name ∈ cs.map Prod.fst then cs else cs ++ [(name, [])]

/-- Read the named store out of the state (empty if absent). -/
def getStore : CacheState → String → Store
  | [], _ => []
  | (n, s) :: rest, name => if n = name then s else getStore rest name

/-- Write back the named store into the state. -/
def setStore : CacheState → String → Store → CacheState
  | [], name, s => [(name, s)]
  | (n, t) :: rest, name, s =>
    if n = name then (n, s) :: rest else (n, t) :: setStore rest name s

/-- `caches.match(request)`: match the request against ALL named stores, in
order, returning the first stored response found. -/
def cachesMatch : CacheState → Request → Option Response
  | [], _ => none
  | (_, s) :: rest, req =>
    match storeMatch s req with
    | some v => some v
    | none => cachesMatch rest req

/-- `cache.addAll(paths)`: fetch every path and store each response keyed by
its request; fails (first component `false`) as soon as any fetch fails,
leaving the puts made so far. -/
def cacheAddAll (net : Network) : Store → List String → Bool × Store
  | s, [] => (true, s)
  | s, p :: rest =>
    match net (assetRequest p) with
    | some v => cacheAddAll net (storePut s (assetRequest p) v) rest
    | none => (false, s)

/-- The install event handler:
`event.waitUntil(caches.open(cacheName).then(cache => cache.addAll(assets)))`.
Returns the outcome handed to `waitUntil` (the deferred result: `true` on
success) and the cache state afterwards. -/
def install (net : Network) (cs : CacheState) : Bool × CacheState :=
  let cs1 := cachesOpen cs cacheName
  let r := cacheAddAll net (getStore cs1 cacheName) assets
  (r.1, setStore cs1 cacheName r.2)

/-- The fetch event handler:
`event.respondWith(caches.match(event.request).then(res => res || fetch(event.request)))`.
Returns the response handed to `respondWith` (`none` when the request fails)
together with the number of network fetches performed for this request. -/
def handleFetch (net : Network) (cs : CacheState) (req : Request) :
    Option Response × Nat :=
  match cachesMatch cs req with
  | some res => (some res, 0)
  | none => (net req, 1)

/-- The fetch handler together with the cache state it leaves behind: the
handler body contains no `cache.put`, so the state it returns is the state it
was given. -/
def handleFetchSt (net : Network) (cs : CacheState) (req : Request) :
    (Option Response × Nat) × CacheState :=
  (handleFetch net cs req, cs)

/-- Worker lifecycle states relevant to installation. -/
inductive WorkerState where
  | installing
  | active
deriving DecidableEq, Repr

/-- Modelled from the spec: the hosting runtime's activation gate, absent from
`src/` (only `event.waitUntil` is in the source) — "installing → installed:
transition succeeds only if every asset in the manifest is fetched and stored
successfully; if any fetch fails, the transition fails and the worker does not
become active". -/
def activateAfterInstall (ok : Bool) : WorkerState :=
  if ok then WorkerState.active else WorkerState.installing

/-- One lifecycle event delivered to the worker, carrying the network
behaviour in effect when it runs. -/
inductive Op where
  | installEv : Network → Op
  | fetchEv : Network → Request → Op

/-- Run a sequence of lifecycle events against a cache state. -/
def runOps : CacheState → List Op → CacheState
  | cs, [] => cs
  | cs, Op.installEv net :: rest => runOps (install net cs).2 rest
  | cs, Op.fetchEv net req :: rest => runOps (handleFetchSt net cs req).2 rest

end ServiceWorker

namespace LargestExercise

/-- The comparison loop of `Main.java`:
`int compare = 0; for (int num : numbers) { if (num > compare) { compare = num; } }`. -/
def largestOf (numbers : List Int) : Int :=
  numbers.foldl (fun compare num => if num > compare then num else compare) 0

/-- What the program reports for three parsed numbers `a,b,c`. -/
def reportedLargest (a b c : Int) : Int :=
  largestOf [a, b, c]

end LargestExercise

namespace ServiceWorker

/-! ## Basic lemmas about a single store -/

theorem storeMatch_storePut_self (s : Store) (req : Request) (v : Response) :
    storeMatch (storePut s req v) req = some v := by
  induction s with
  | nil => simp [storePut, storeMatch]
  | cons hd tl ih =>
    obtain ⟨r, w⟩ := hd
    by_cases h : r = req
    · subst h
      simp [storePut, storeMatch]
    · simp [storePut, storeMatch, h, ih]

theorem storeMatch_storePut_other (s : Store) (req req' : Request) (v : Response)
    (h : req' ≠ req) :
    storeMatch (storePut s req v) req' = storeMatch s req' := by
  have hne : req ≠ req' := Ne.symm h
  induction s with
  | nil => simp [storePut, storeMatch, hne]
  | cons hd tl ih =>
    obtain ⟨r, w⟩ := hd
    by_cases hr : r = req
    · subst hr
      simp [storePut, storeMatch, hne]
    · by_cases hr' : r = req'
      · simp [storePut, storeMatch, hr, hr', h]
      · simp [storePut, storeMatch, hr, hr', ih]

theorem storePut_of_storeMatch (s : Store) (req : Request) (v : Response)
    (h : storeMatch s req = some v) : storePut s req v = s := by
  induction s with
  | nil => simp [storeMatch] at h
  | cons hd tl ih =>
    obtain ⟨r, w⟩ := hd
    by_cases hr : r = req
    · subst hr
      simp [storeMatch] at h
      simp [storePut, h]
    · simp only [storeMatch, if_neg hr] at h
      simp [storePut, hr, ih h]

theorem mem_storePut (s : Store) (req : Request) (v w : Response) (r : Request)
    (h : (r, w) ∈ storePut s req v) : (r, w) ∈ s ∨ (r = req ∧ w = v) := by
  induction s with
  | nil =>
    simp [storePut] at h
    exact Or.inr h
  | cons hd tl ih =>
    obtain ⟨r', v'⟩ := hd
    simp only [storePut] at h
    split_ifs at h with hr
    · rcases List.mem_cons.mp h with h1 | h1
      · exact Or.inr ⟨congrArg Prod.fst h1, congrArg Prod.snd h1⟩
      · exact Or.inl (List.mem_cons_of_mem _ h1)
    · rcases List.mem_cons.mp h with h1 | h1
      · exact Or.inl (List.mem_cons.mpr (Or.inl h1))
      · rcases ih h1 with h2 | h2
        · exact Or.inl (List.mem_cons_of_mem _ h2)
        · exact Or.inr h2

/-! ## Lemmas about `cacheAddAll` -/

theorem cacheAddAll_preserves (net : Network) (ps : List String) (s : Store)
    (r : Request) (v : Response) (hnet : net r = some v)
    (hs : storeMatch s r = some v) :
    storeMatch (cacheAddAll net s ps).2 r = some v := by
  induction ps generalizing s with
  | nil => simpa [cacheAddAll] using hs
  | cons p rest ih =>
    rcases hw : net (assetRequest p) with _ | w
    · simpa [cacheAddAll, hw] using hs
    · simp only [cacheAddAll, hw]
      by_cases hpr : assetRequest p = r
      · subst hpr
        have hv : w = v := by
          rw [hnet] at hw
          exact (Option.some.injEq _ _ ▸ hw.symm)
        exact ih _ (hv ▸ storeMatch_storePut_self s (assetRequest p) w)
      · exact ih _ ((storeMatch_storePut_other s (assetRequest p) r w
          (fun e => hpr e.symm)).trans hs)

theorem cacheAddAll_success_match (net : Network) (ps : List String) (s : Store)
    (hsucc : (cacheAddAll net s ps).1 = true) (p : String) (hp : p ∈ ps) :
    storeMatch (cacheAddAll net s ps).2 (assetRequest p) = net (assetRequest p) := by
  induction ps generalizing s with
  | nil => simp at hp
  | cons q rest ih =>
    rcases hw : net (assetRequest q) with _ | w
    · rw [cacheAddAll, hw] at hsucc
      simp at hsucc
    · rw [cacheAddAll, hw] at hsucc ⊢
      rcases List.mem_cons.mp hp with hq | hq
      · subst hq
        rw [hw]
        exact cacheAddAll_preserves net rest _ (assetRequest p) w hw
          (storeMatch_storePut_self s (assetRequest p) w)
      · exact ih _ hsucc hq

theorem cacheAddAll_fail (net : Network) (ps : List String) (s : Store)
    (p : String) (hp : p ∈ ps) (hfail : net (assetRequest p) = none) :
    (cacheAddAll net s ps).1 = false := by
  induction ps generalizing s with
  | nil => simp at hp
  | cons q rest ih =>
    rcases hw : net (assetRequest q) with _ | w
    · simp [cacheAddAll, hw]
    · rcases List.mem_cons.mp hp with hq | hq
      · subst hq
        rw [hfail] at hw
        exact absurd hw (by simp)
      · rw [cacheAddAll, hw]
        exact ih _ hq

theorem cacheAddAll_idem (net : Network) (ps : List String) (s : Store) :
    cacheAddAll net (cacheAddAll net s ps).2 ps = cacheAddAll net s ps := by
  induction ps generalizing s with
  | nil => simp [cacheAddAll]
  | cons p rest ih =>
    rcases hw : net (assetRequest p) with _ | w
    · simp [cacheAddAll, hw]
    · simp only [cacheAddAll, hw]
      have hfix : storePut (cacheAddAll net (storePut s (assetRequest p) w) rest).2
          (assetRequest p) w = (cacheAddAll net (storePut s (assetRequest p) w) rest).2 :=
        storePut_of_storeMatch _ _ _
          (cacheAddAll_preserves net rest _ (assetRequest p) w hw
            (storeMatch_storePut_self s (assetRequest p) w))
      rw [hfix]
      exact ih _

/-! ## Lemmas about the cache state -/

theorem getStore_setStore (cs : CacheState) (name : String) (s : Store) :
    getStore (setStore cs name s) name = s := by
  induction cs with
  | nil => simp [setStore, getStore]
  | cons hd tl ih =>
    obtain ⟨n, t⟩ := hd
    by_cases hn : n = name
    · subst hn
      simp [setStore, getStore]
    · simp [setStore, getStore, hn, ih]

theorem setStore_setStore (cs : CacheState) (name : String) (s t : Store) :
    setStore (setStore cs name s) name t = setStore cs name t := by
  induction cs with
  | nil => simp [setStore]
  | cons hd tl ih =>
    obtain ⟨n, u⟩ := hd
    by_cases hn : n = name
    · subst hn
      simp [setStore]
    · simp [setStore, hn, ih]

theorem mem_names_setStore (cs : CacheState) (name : String) (s : Store) :
    name ∈ (setStore cs name s).map Prod.fst := by
  induction cs with
  | nil => simp [setStore]
  | cons hd tl ih =>
    obtain ⟨n, u⟩ := hd
    by_cases hn : n = name
    · subst hn
      simp [setStore]
    · simp only [setStore, if_neg hn, List.map_cons, List.mem_cons]
      exact Or.inr ih

theorem mem_names_cachesOpen (cs : CacheState) (name : String) :
    name ∈ (cachesOpen cs name).map Prod.fst := by
  unfold cachesOpen
  split_ifs with h
  · exact h
  · simp

theorem cachesOpen_of_mem (cs : CacheState) (name : String)
    (h : name ∈ cs.map Prod.fst) : cachesOpen cs name = cs := by
  simp [cachesOpen, h]

/-- Installing a second time changes nothing: the named store already exists
and re-adding the same fetched assets rewrites each key with the value it
already holds. -/
theorem install_install (net : Network) (cs : CacheState) :
    install net (install net cs).2 = install net cs := by
  simp only [install]
  rw [cachesOpen_of_mem _ _ (mem_names_setStore _ _ _), getStore_setStore,
    cacheAddAll_idem, setStore_setStore]

/-! ## Membership lemmas for the store-keys invariant -/

theorem mem_getStore (cs : CacheState) (name : String) (r : Request)
    (v : Response) (h : (r, v) ∈ getStore cs name) :
    ∃ st, (name, st) ∈ cs ∧ (r, v) ∈ st := by
  induction cs with
  | nil => simp [getStore] at h
  | cons hd tl ih =>
    obtain ⟨n, s⟩ := hd
    by_cases hn : n = name
    · subst hn
      rw [getStore, if_pos rfl] at h
      exact ⟨s, List.mem_cons_self _ _, h⟩
    · rw [getStore, if_neg hn] at h
      obtain ⟨st, hst, hm⟩ := ih h
      exact ⟨st, List.mem_cons_of_mem _ hst, hm⟩

theorem mem_setStore_state (cs : CacheState) (name : String) (s : Store)
    (nm : String) (st : Store) (h : (nm, st) ∈ setStore cs name s) :
    (nm, st) ∈ cs ∨ st = s := by
  induction cs with
  | nil =>
    simp [setStore] at h
    exact Or.inr h.2
  | cons hd tl ih =>
    obtain ⟨n, t⟩ := hd
    by_cases hn : n = name
    · subst hn
      rw [setStore, if_pos rfl] at h
      rcases List.mem_cons.mp h with h1 | h1
      · exact Or.inr (congrArg Prod.snd h1)
      · exact Or.inl (List.mem_cons_of_mem _ h1)
    · rw [setStore, if_neg hn] at h
      rcases List.mem_cons.mp h with h1 | h1
      · exact Or.inl (List.mem_cons.mpr (Or.inl h1))
      · rcases ih h1 with h2 | h2
        · exact Or.inl (List.mem_cons_of_mem _ h2)
        · exact Or.inr h2

theorem mem_cachesOpen_state (cs : CacheState) (name : String)
    (nm : String) (st : Store) (h : (nm, st) ∈ cachesOpen cs name) :
    (nm, st) ∈ cs ∨ st = [] := by
  unfold cachesOpen at h
  split_ifs at h
  · exact Or.inl h
  · rcases List.mem_append.mp h with h1 | h1
    · exact Or.inl h1
    · simp at h1
      exact Or.inr h1.2

theorem mem_cacheAddAll (net : Network) (ps : List String) (s : Store)
    (r : Request) (v : Response) (h : (r, v) ∈ (cacheAddAll net s ps).2) :
    (r, v) ∈ s ∨ r ∈ ps.map assetRequest := by
  induction ps generalizing s with
  | nil => exact Or.inl (by simpa [cacheAddAll] using h)
  | cons p rest ih =>
    rcases hw : net (assetRequest p) with _ | w
    · rw [cacheAddAll, hw] at h
      exact Or.inl h
    · rw [cacheAddAll, hw] at h
      rcases ih _ h with h1 | h1
      · rcases mem_storePut s (assetRequest p) w v r h1 with h2 | h2
        · exact Or.inl h2
        · exact Or.inr (by simp [h2.1])
      · exact Or.inr (by simpa [List.mem_cons] using Or.inr h1)

/-- Install only ever adds entries keyed by manifest asset requests. -/
theorem install_good (net : Network) (cs : CacheState)
    (hcs : ∀ nm st, (nm, st) ∈ cs → ∀ r v, (r, v) ∈ st →
      r ∈ assets.map assetRequest) :
    ∀ nm st, (nm, st) ∈ (install net cs).2 → ∀ r v, (r, v) ∈ st →
      r ∈ assets.map assetRequest := by
  intro nm st hmem r v hrv
  simp only [install] at hmem
  rcases mem_setStore_state _ _ _ _ _ hmem with h1 | h1
  · rcases mem_cachesOpen_state _ _ _ _ h1 with h2 | h2
    · exact hcs nm st h2 r v hrv
    · rw [h2] at hrv
      exact absurd hrv (List.not_mem_nil _)
  · rw [h1] at hrv
    rcases mem_cacheAddAll _ _ _ _ _ hrv with h2 | h2
    · obtain ⟨st0, hst0, hm0⟩ := mem_getStore _ _ _ _ h2
      rcases mem_cachesOpen_state _ _ _ _ hst0 with h3 | h3
      · exact hcs _ _ h3 r v hm0
      · rw [h3] at hm0
        exact absurd hm0 (List.not_mem_nil _)
    · exact h2

/-- Running any event sequence preserves the store-keys invariant. -/
theorem runOps_good (ops : List Op) (cs : CacheState)
    (hcs : ∀ nm st, (nm, st) ∈ cs → ∀ r v, (r, v) ∈ st →
      r ∈ assets.map assetRequest) :
    ∀ nm st, (nm, st) ∈ runOps cs ops → ∀ r v, (r, v) ∈ st →
      r ∈ assets.map assetRequest := by
  induction ops generalizing cs with
  | nil => simpa [runOps] using hcs
  | cons op rest ih =>
    cases op with
    | installEv net => exact ih _ (install_good net cs hcs)
    | fetchEv net req => exact ih _ hcs

/-- The fetch handler on a cache miss forwards to the network once. -/
theorem handleFetch_miss (net : Network) (cs : CacheState) (req : Request)
    (h : cachesMatch cs req = none) : handleFetch net cs req = (net req, 1) := by
  rw [handleFetch, h]

/-- If a request misses every individual store, `caches.match` misses. -/
theorem cachesMatch_eq_none (cs : CacheState) (req : Request)
    (h : ∀ nm st, (nm, st) ∈ cs → storeMatch st req = none) :
    cachesMatch cs req = none := by
  induction cs with
  | nil => rfl
  | cons hd tl ih =>
    obtain ⟨n, s⟩ := hd
    rw [cachesMatch, h n s (List.mem_cons_self _ _)]
    exact ih fun nm st hm => h nm st (List.mem_cons_of_mem _ hm)

/-- The shape of an install that starts from the empty cache state. -/
theorem install_empty (net : Network) :
    install net ([] : CacheState) =
      ((cacheAddAll net [] assets).1,
        [(cacheName, (cacheAddAll net [] assets).2)]) := by
  simp [install, cachesOpen, getStore, setStore]

/-! ## The claims -/

/-- Claim C1: for every request whose identity is present in the named cache
store after a successful install, the fetch handler returns the stored
response and performs zero network fetches for that request. -/
theorem claim1_cached_request_served_without_network
    (net net2 : Network) (req : Request) (r : Response)
    (_hok : (install net []).1 = true)
    (hhit : storeMatch (getStore (install net []).2 cacheName) req = some r) :
    handleFetch net2 (install net []).2 req = (some r, 0) := by
  rw [install_empty] at hhit ⊢
  simp [getStore] at hhit
  simp [handleFetch, cachesMatch, hhit]

/-- Witness for claim C1 at a concrete network and request. -/
theorem claim1_witness :
    handleFetch (fun _ => none)
      (install (fun _ => some ⟨200, "x"⟩) ([] : CacheState)).2
      (assetRequest "/") = (some ⟨200, "x"⟩, 0) :=
  claim1_cached_request_served_without_network
    (fun _ => some ⟨200, "x"⟩) (fun _ => none) (assetRequest "/") ⟨200, "x"⟩
    (by decide) (by decide)

/-- Claim C2: for every request absent from every cache store, the fetch
handler performs exactly one network fetch and returns its result
unchanged. -/
theorem claim2_miss_forwards_to_network_once
    (net : Network) (cs : CacheState) (req : Request)
    (hmiss : ∀ nm st, (nm, st) ∈ cs → storeMatch st req = none) :
    handleFetch net cs req = (net req, 1) :=
  handleFetch_miss net cs req (cachesMatch_eq_none cs req hmiss)

/-- Witness for claim C2 at a concrete state and request. -/
theorem claim2_witness :
    handleFetch (fun _ => some ⟨404, "nf"⟩) [(cacheName, [])]
      (assetRequest "/nope") = (some ⟨404, "nf"⟩, 1) :=
  claim2_miss_forwards_to_network_once (fun _ => some ⟨404, "nf"⟩)
    [(cacheName, [])] (assetRequest "/nope")
    (by intro nm st hm; simp at hm; rw [hm.2]; rfl)

/-- Claim C3: if the fetch of any single manifest asset fails during install,
the deferred result handed to the runtime resolves as a failure and the
worker does not transition to the active state. -/
theorem claim3_failed_asset_fails_install
    (net : Network) (cs : CacheState) (p : String)
    (hp : p ∈ assets) (hfail : net (assetRequest p) = none) :
    (install net cs).1 = false ∧
      activateAfterInstall (install net cs).1 ≠ WorkerState.active := by
  have hf : (install net cs).1 = false := by
    simp only [install]
    exact cacheAddAll_fail net assets _ p hp hfail
  refine ⟨hf, ?_⟩
  rw [hf]
  simp [activateAfterInstall]

/-- Witness for claim C3 at a concrete failing network. -/
theorem claim3_witness :
    (install (fun _ => none) ([] : CacheState)).1 = false ∧
      activateAfterInstall (install (fun _ => none) ([] : CacheState)).1 ≠
        WorkerState.active :=
  claim3_failed_asset_fails_install (fun _ => none) [] "/" (by decide) rfl

/-- Claim C4: after a successful install, for every asset path in the
manifest, a lookup in the named cache store by that asset's exact request
identity returns a stored response equal to the response fetched for it at
install time. -/
theorem claim4_installed_assets_retrievable
    (net : Network) (cs : CacheState) (p : String)
    (hok : (install net cs).1 = true) (hp : p ∈ assets) :
    storeMatch (getStore (install net cs).2 cacheName) (assetRequest p) =
        net (assetRequest p) ∧
      (net (assetRequest p)).isSome = true := by
  simp only [install] at hok ⊢
  rw [getStore_setStore]
  refine ⟨cacheAddAll_success_match net assets _ hok p hp, ?_⟩
  rcases hn : net (assetRequest p) with _ | w
  · rw [cacheAddAll_fail net assets _ p hp hn] at hok
    exact absurd hok (by simp)
  · rfl

/-- Witness for claim C4 at a concrete network and asset. -/
theorem claim4_witness :
    storeMatch (getStore (install (fun _ => some ⟨200, "ok"⟩)
        ([] : CacheState)).2 cacheName) (assetRequest "/static/app.js") =
        some ⟨200, "ok"⟩ ∧
      (some (⟨200, "ok"⟩ : Response)).isSome = true :=
  claim4_installed_assets_retrievable (fun _ => some ⟨200, "ok"⟩) []
    "/static/app.js" (by decide) (by decide)

/-- Claim C5: for every request with no cached entry whose forwarded network
fetch fails, the fetch handler resolves the request as a failed request and
does not synthesize any fallback response. -/
theorem claim5_miss_network_failure_propagates
    (net : Network) (cs : CacheState) (req : Request)
    (hmiss : ∀ nm st, (nm, st) ∈ cs → storeMatch st req = none)
    (hfail : net req = none) :
    handleFetch net cs req = (none, 1) := by
  rw [handleFetch_miss net cs req (cachesMatch_eq_none cs req hmiss), hfail]

/-- Witness for claim C5 at a concrete state and failing network. -/
theorem claim5_witness :
    handleFetch (fun _ => none) ([] : CacheState) (assetRequest "/gone") =
      (none, 1) :=
  claim5_miss_network_failure_propagates (fun _ => none) []
    (assetRequest "/gone") (by simp) rfl

/-- Claim C6: installing twice with the unchanged manifest against a fresh
store produces exactly the same stored contents (and the same deferred
outcome) as installing once, the network returning the same responses. -/
theorem claim6_install_idempotent (net : Network) :
    install net (install net ([] : CacheState)).2 = install net [] :=
  install_install net []

/-- Claim C7: starting from an empty cache state, after any sequence of
install and fetch events, every key in every cache store is the request of a
manifest asset path; moreover the fetch handler never writes to the cache
state. -/
theorem claim7_store_keys_from_manifest
    (ops : List Op) (nm : String) (st : Store)
    (hmem : (nm, st) ∈ runOps [] ops) (r : Request) (v : Response)
    (hrv : (r, v) ∈ st) :
    r ∈ assets.map assetRequest ∧
      ∀ (net : Network) (cs : CacheState) (req : Request),
        (handleFetchSt net cs req).2 = cs :=
  ⟨runOps_good ops []
      (fun _ _ h => absurd h (List.not_mem_nil _)) nm st hmem r v hrv,
    fun _ _ _ => rfl⟩

/-- Witness for claim C7 at a concrete event sequence. -/
theorem claim7_witness :
    assetRequest "/" ∈ assets.map assetRequest ∧
      (handleFetchSt (fun _ => none) ([] : CacheState) (assetRequest "/")).2 =
        [] := by
  have h := claim7_store_keys_from_manifest
    [Op.installEv (fun _ => some ⟨200, "ok"⟩)] cacheName
    [(assetRequest "/", ⟨200, "ok"⟩), (assetRequest "/static/app.js", ⟨200, "ok"⟩),
      (assetRequest "/static/manifest.json", ⟨200, "ok"⟩)]
    (by decide) (assetRequest "/") ⟨200, "ok"⟩ (by decide)
  exact ⟨h.1, h.2 (fun _ => none) [] (assetRequest "/")⟩

/-- Claim C9: the fetch handler's lookup is not restricted to the named cache
store: a response stored in any other named store is also served, with zero
network fetches. -/
theorem claim9_lookup_spans_all_stores
    (name : String) (net : Network) (req : Request) (r : Response)
    (_hname : name ≠ cacheName) :
    handleFetch net [(cacheName, []), (name, [(req, r)])] req =
      (some r, 0) := by
  simp [handleFetch, cachesMatch, storeMatch]

/-- Witness for claim C9 at a concrete foreign store. -/
theorem claim9_witness :
    handleFetch (fun _ => none)
      [(cacheName, []), ("other-cache", [(assetRequest "/elsewhere", ⟨200, "alt"⟩)])]
      (assetRequest "/elsewhere") = (some ⟨200, "alt"⟩, 0) :=
  claim9_lookup_spans_all_stores "other-cache" (fun _ => none)
    (assetRequest "/elsewhere") ⟨200, "alt"⟩ (by decide)

end ServiceWorker

namespace LargestExercise

/-- Claim C8 fails on the code: for the all-negative input `-5,-2,-3` the
program reports `0` as the largest, while the maximum of the three numbers is
`-2` (the accumulator starts at `0` instead of at one of the inputs). -/
theorem claim8_largest_of_three_bug :
    reportedLargest (-5) (-2) (-3) = 0 ∧
      max (max (-5 : Int) (-2)) (-3) = -2 ∧ (0 : Int) ≠ -2 := by
  decide

end LargestExercise
